import Mathlib

/-!
Verification development for the metadata-service repository.

The development shallowly embeds the core of `src/mds/agg_mds/adapters.py`
(JSON-path field extraction, field filters, field mapping, flattening,
per-item override merge, the adapter fetch/normalize steps) and of
`src/mds/query.py` (the rich filter grammar and the compiled quantifier
clauses).  JSON documents are modelled by the inductive type `J`; Python
dictionaries are modelled as association lists with unique keys, with the
Python insertion/update semantics made explicit (`pyInsert`, `pyDict`,
`pyUpdate`).  Fallible Python code (KeyError, AttributeError, upstream
fetch errors) is modelled with `Except String`.
-/

/-- A JSON value: the documents, records and mapping results that
`adapters.py` manipulates. -/
inductive J where
  | null
  | bool (b : Bool)
  | num (n : Int)
  | str (s : String)
  | arr (elems : List J)
  | obj (fields : List (String × J))

/-- A Python dictionary with string keys, as an association list in key
insertion order.  Keys are unique for dictionaries produced by Python. -/
abbrev Fields : Type := List (String × J)

/-- Python `d[k]` / `d.get(k)`: the value at the first occurrence of key
`k`. -/
def lookupField {β : Type} (k : String) (d : List (String × β)) : Option β :=
  match List.find? (fun p => p.1 == k) d with
  | some p => some p.2
  | none => none

/-- Python `d[k] = v`: overwrite the value in place if the key exists
(keeping its position), otherwise append the new key at the end. -/
def pyInsert {β : Type} (d : List (String × β)) (k : String) (v : β) : List (String × β) :=
  if d.any (fun p => p.1 == k) then
    d.map (fun p => if p.1 == k then (p.1, v) else p)
  else d ++ [(k, v)]

/-- Python `dict(items)`: build a dictionary from a list of pairs; later
values win, keys keep the position of their first occurrence. -/
def pyDict {β : Type} (l : List (String × β)) : List (String × β) :=
  l.foldl (fun d p => pyInsert d p.1 p.2) []

/-- Python `d.update(m)`: insert every entry of `m` into `d` in order. -/
def pyUpdate {β : Type} (d m : List (String × β)) : List (String × β) :=
  m.foldl (fun d p => pyInsert d p.1 p.2) d

/-- Whether `pat` is a prefix of `cs` (Python `str.startswith`). -/
def startsWithChars : List Char → List Char → Bool
  | [], _ => true
  | _ :: _, [] => false
  | p :: ps, c :: cs => p == c && startsWithChars ps cs

/-- Whether `pat` occurs as a substring (Python `pat in s`). -/
def containsChars (pat : List Char) : List Char → Bool
  | [] => startsWithChars pat []
  | c :: cs => startsWithChars pat (c :: cs) || containsChars pat cs

/-- The suffix after the first occurrence of `pat` (meaningful when
`containsChars pat cs` holds). -/
def dropToMarker (pat : List Char) : List Char → List Char
  | [] => []
  | c :: cs =>
    if startsWithChars pat (c :: cs) then List.drop pat.length (c :: cs)
    else dropToMarker pat cs

/-- The prefix up to (excluding) the first occurrence of `pat`. -/
def takeToMarker (pat : List Char) : List Char → List Char
  | [] => []
  | c :: cs =>
    if startsWithChars pat (c :: cs) then []
    else c :: takeToMarker pat cs

/-- Python `s.split(sep)[1]`: the segment between the first occurrence of
`sep` and the following occurrence (or the end of the string). -/
def pySplitSecond (sep : String) (s : String) : String :=
  String.mk (takeToMarker sep.data (dropToMarker sep.data s.data))

/-- One step of a JSON path expression: a field name, an array index, or
a wildcard. -/
inductive PathStep where
  | key (k : String)
  | idx (n : Nat)
  | wild

/-- A parsed JSON path expression, as a sequence of steps. -/
abbrev PathExpr : Type := List PathStep

/-- Interpret a single path step against a value, in document order. -/
def stepMatches : PathStep → J → List J
  | PathStep.key k, J.obj fields =>
      (match lookupField k fields with
       | some v => [v]
       | none => [])
  | PathStep.key _, _ => []
  | PathStep.idx i, J.arr xs =>
      (match List.get? xs i with
       | some v => [v]
       | none => [])
  | PathStep.idx _, _ => []
  | PathStep.wild, J.arr xs => xs
  | PathStep.wild, J.obj fields => fields.map (fun p => p.2)
  | PathStep.wild, _ => []

/-- Modelled from the spec: evaluation of a parsed path expression by the
external `jsonpath_ng` collaborator (`jsonpath_expr.find(item)`), which is
not part of this repository.  The spec glossary describes a path
expression as a dotted/indexed locator into a nested document; `find`
returns all matched values in path-evaluation (document) order. -/
def findMatches : PathExpr → J → List J
  | [], v => [v]
  | s :: rest, v => (stepMatches s v).flatMap (findMatches rest)

/-- Value of a natural number written in decimal digits. -/
def natOfDigits (ds : List Char) : Nat :=
  ds.foldl (fun n c => n * 10 + (c.toNat - 48)) 0

/-- Modelled from the spec: parsing of a path-expression string by the
external `jsonpath_ng.parse`, which is not part of this repository,
restricted to the dotted/indexed locators the spec glossary describes.
A dot-separated segment is a field name, optionally followed by a numeric
index `[i]` or a wildcard index, or the bare wildcard; anything else is a
syntax error (`none`), which the spec treats as a fatal configuration
error. -/
def parsePathSegment (cs : List Char) : Option (List PathStep) :=
  if cs = ['*'] then some [PathStep.wild]
  else
    let name := cs.takeWhile (fun c => c ≠ '[')
    let rest := cs.dropWhile (fun c => c ≠ '[')
    if name.isEmpty then none
    else
      match rest with
      | [] => some [PathStep.key (String.mk name)]
      | '[' :: more =>
        if more = ['*', ']'] then some [PathStep.key (String.mk name), PathStep.wild]
        else
          let ds := more.takeWhile Char.isDigit
          if ds ≠ [] && more = ds ++ [']'] then
            some [PathStep.key (String.mk name), PathStep.idx (natOfDigits ds)]
          else none
      | _ => none

/-- Split a character list on the dot character. -/
def splitDot : List Char → List (List Char)
  | [] => [[]]
  | c :: cs =>
    if c = '.' then [] :: splitDot cs
    else
      match splitDot cs with
      | s :: ss => (c :: s) :: ss
      | [] => [[c]]

/-- Modelled from the spec: `jsonpath_ng.parse` on a whole expression
string (external collaborator), per the restricted locator language of
`parsePathSegment`. -/
def parsePathString (s : String) : Option PathExpr :=
  match (splitDot s.data).mapM parsePathSegment with
  | some segs => some segs.flatten
  | none => none

/-- Embedding of `get_json_path_value` (adapters.py lines 24-41).  A
`none` expression returns the empty string; otherwise the expression is
parsed (a syntax error propagates, modelled with `Except.error`) and
evaluated: zero matches give the empty string, exactly one match gives
the value itself, several matches give the list of matched values. -/
def get_json_path_value (expression : Option String) (item : J) : Except String J :=
  match expression with
  | none => Except.ok (J.str "")
  | some e =>
    match parsePathString e with
    | none => Except.error "JsonPathParserError"
    | some p =>
      match findMatches p item with
      | [] => Except.ok (J.str "")
      | [x] => Except.ok x
      | xs => Except.ok (J.arr xs)

/-- Remove markup from a string: drop every span between a left and a
right angle bracket, keep the text content. -/
def stripTagsAux : List Char → Bool → List Char
  | [], _ => []
  | c :: rest, true => if c = '>' then stripTagsAux rest false else stripTagsAux rest true
  | c :: rest, false => if c = '<' then stripTagsAux rest true else c :: stripTagsAux rest false

/-- Modelled from the spec: `strip_html` (adapters.py lines 10-11) calls
the external `bleach.clean(s, tags=[], strip=True)`, which removes all
markup and preserves text content only.  The external library operates on
strings; non-string values are returned unchanged here (no registered
filter is applied to a non-string value in any claim below). -/
def strip_html : J → J
  | J.str s => J.str (String.mk (stripTagsAux s.data false))
  | v => v

namespace FieldFilters

/-- Embedding of the `FieldFilters.filters` registry (adapters.py line
15): the single registered filter is `strip_html`. -/
def filters : List (String × (J → J)) := [("strip_html", strip_html)]

/-- Embedding of `FieldFilters.execute` (adapters.py lines 17-21): a name
absent from the registry returns the value unchanged, a registered name
applies its filter. -/
def execute (name : String) (value : J) : J :=
  match List.find? (fun p => p.1 == name) filters with
  | none => value
  | some p => p.2 value

end FieldFilters

namespace RemoteMetadataAdapter

/-- One value of a field mapping spec, as `mapFields` (adapters.py lines
78-116) distinguishes them: a structured dict spec with an optional
`path` and a list of filter names, or a plain string (a `path:` reference
or a literal). -/
inductive MappingVal where
  | structured (path : Option String) (filterNames : List String)
  | literal (s : String)

/-- A field mapping spec: output field name to mapping value. -/
abbrev Mappings : Type := List (String × MappingVal)

/-- Embedding of `RemoteMetadataAdapter.mapFields` (adapters.py lines
78-116).  For each mapping entry in order: a structured spec resolves its
`path` (missing path gives `none`, hence the empty string) through
`get_json_path_value` and then folds the named filters over the value; a
plain string containing `path:` resolves the segment after the marker
(Python `value.split("path:")[1]`) as a path expression; any other string
is assigned verbatim.  Results accumulate into a fresh dict. -/
def mapFields (item : Fields) (mappings : Mappings) : Except String Fields :=
  mappings.foldlM
    (fun results kv =>
      match kv.2 with
      | MappingVal.structured pathExpr filterNames =>
          (get_json_path_value pathExpr (J.obj item)).bind fun fieldValue =>
            Except.ok (pyInsert results kv.1
              (filterNames.foldl (fun v f => FieldFilters.execute f v) fieldValue))
      | MappingVal.literal s =>
          if containsChars "path:".data s.data then
            (get_json_path_value (some (pySplitSecond "path:" s)) (J.obj item)).bind
              fun fieldValue => Except.ok (pyInsert results kv.1 fieldValue)
          else
            Except.ok (pyInsert results kv.1 (J.str s)))
    []

/-- Specification-side description of the field mapper, following spec
section 4.3: for each declared output field, a structured object resolves
its `path` via the extractor and then applies each named filter in
declared order, left to right; a string containing the marker `path:`
treats the remainder (up to a further marker) as a path expression with
no filters; otherwise the literal value is used verbatim.  Stated as a
one-to-one map over the declared fields. -/
def mapFieldsSpec (item : Fields) (mappings : Mappings) : Except String Fields :=
  mappings.mapM
    (fun kv =>
      match kv.2 with
      | MappingVal.structured pathExpr filterNames =>
          (get_json_path_value pathExpr (J.obj item)).bind fun v =>
            Except.ok ((kv.1, filterNames.foldl (fun v f => FieldFilters.execute f v) v) : String × J)
      | MappingVal.literal s =>
          if containsChars "path:".data s.data then
            (get_json_path_value (some (pySplitSecond "path:" s)) (J.obj item)).bind
              fun v => Except.ok ((kv.1, v) : String × J)
          else
            Except.ok ((kv.1, J.str s) : String × J))

end RemoteMetadataAdapter

/-- A normalized canonical record: `_guid_type` together with the
`gen3_discovery` field dict. -/
structure GenRecord where
  guidType : String
  gen3Discovery : Fields

/-- A normalized record set keyed by guid, in insertion order. -/
abbrev ItemMap : Type := List (String × GenRecord)

/-- Python `if k in d: d[k] = v`: overwrite an existing key in place,
leave the dict unchanged when the key is absent. -/
def setKeyIfPresent (d : Fields) (k : String) (v : J) : Fields :=
  if d.any (fun p => p.1 == k) then
    d.map (fun p => if p.1 == k then (p.1, v) else p)
  else d

/-- The inner loop of `setPerItemValues`: write each override field onto
the discovery dict, only where the field key already exists. -/
def applyOverrides (d : Fields) (values : Fields) : Fields :=
  values.foldl (fun d kv => setKeyIfPresent d kv.1 kv.2) d

namespace RemoteMetadataAdapter

/-- Embedding of `RemoteMetadataAdapter.setPerItemValues` (adapters.py
lines 118-124).  For each override entry in order: when its id is a key
of the record set, each override field is written onto that record's
`gen3_discovery` dict, but only where the field key already exists. -/
def setPerItemValues (items : ItemMap) (perItemValues : List (String × Fields)) : ItemMap :=
  perItemValues.foldl
    (fun items idVals =>
      if items.any (fun p => p.1 == idVals.1) then
        items.map (fun p =>
          if p.1 == idVals.1 then
            (p.1, { p.2 with gen3Discovery := applyOverrides p.2.gen3Discovery idVals.2 })
          else p)
      else items)
    items

end RemoteMetadataAdapter

/-- The item collection pass of `flatten` (adapters.py lines 44-60): for
each key of the dictionary, a nested dictionary value is flattened by the
recursive call `flatten(value, False, separator)` — note the parent key
is passed as `False`, not as the freshly built `new_key` — and any other
value is emitted under `new_key`. -/
def flattenCollect : List (String × J) → Option String → List (String × J)
  | [], _ => []
  | (key, value) :: rest, parentKey =>
    let newKey := match parentKey with | some p => p ++ "." ++ key | none => key
    (match value with
     | J.obj sub => pyDict (flattenCollect sub none)
     | _ => [(newKey, value)]) ++ flattenCollect rest parentKey

/-- Embedding of `flatten` (adapters.py lines 44-60): collect the items
and build the final dictionary from them (`dict(items)`).  The
`parentKey` argument models the `parent_key` parameter, `none` standing
for the falsy default `False`. -/
def flatten (dictionary : List (String × J)) (parentKey : Option String) : Fields :=
  pyDict (flattenCollect dictionary parentKey)

/-- Denotational embedding of `get_all_sql_clause` (query.py lines
295-333) evaluated over the JSON array stored at the target key.  The
generated SQL is `jsonb_array_length(target) = (SELECT count(*) FROM
jsonb_array_elements(target) AS elem WHERE cmp(elem, operand))`; both the
`text` branch (`jsonb_array_elements_text`) and the typed JSONB branch
count the elements satisfying the scalar comparison, abstracted here as
the predicate `sat`. -/
def get_all_sql_clause (arr : List J) (sat : J → Bool) : Bool :=
  arr.length == (List.filter sat arr).length

namespace ClinicalTrials

/-- The remote endpoint modelled as an honest store of `studies`: a
request window `min_rnk = offset`, `max_rnk = offset + limit - 1` returns
that slice, `NStudiesFound` is the total count and `NStudiesReturned` the
slice length. -/
def serverBatch {α : Type} (studies : List α) (offset limit : Nat) : List α :=
  (studies.drop (offset - 1)).take limit

/-- The fetch loop of `ClinicalTrials.getRemoteDataAsJson` (adapters.py
lines 249-294), against the honest server model.  State: accumulated
results, `offset` (1-based), `remaining`, and the current request
`limit`.  On the first pass (`offset = 1`) `remaining` is set from
`NStudiesFound` and `maxItems` is clamped to it; after each batch the
results are extended and returned as soon as their length reaches
`maxItems`; otherwise `remaining`, `offset` and `limit` are advanced.
The `fuel` argument is an embedding artifact bounding the iteration count
(the Python loop runs until `remaining` reaches zero or the cap check
fires). -/
def fetchLoop {α : Type} (studies : List α) (batchSize : Nat) :
    Nat → Option Nat → List α → Nat → Nat → Nat → List α
  | 0, _, acc, _, _, _ => acc
  | fuel + 1, maxItems, acc, offset, remaining, limit =>
    if remaining = 0 then acc
    else if studies.length = 0 then acc
    else
      let remaining := if offset = 1 then studies.length else remaining
      let maxItems :=
        if offset = 1 then maxItems.map (fun m => min m studies.length) else maxItems
      let batch := serverBatch studies offset limit
      let numReturned := batch.length
      let acc := acc ++ batch
      let hitCap :=
        match maxItems with
        | some m => decide (m ≤ acc.length)
        | none => false
      if hitCap then acc
      else
        fetchLoop studies batchSize fuel maxItems acc (offset + numReturned)
          (remaining - numReturned) (min (remaining - numReturned) batchSize)

/-- Embedding of `ClinicalTrials.getRemoteDataAsJson` (adapters.py lines
234-294) for a non-empty search term, against the honest server model:
the initial request limit is `min(maxItems, batchSize)` when `maxItems`
is given and `batchSize` otherwise, and the loop starts at `offset = 1`
with `remaining = 1`. -/
def getRemoteDataAsJson {α : Type} (studies : List α) (batchSize : Nat)
    (maxItems : Option Nat) (fuel : Nat) : List α :=
  let limit := match maxItems with | some m => min m batchSize | none => batchSize
  fetchLoop studies batchSize fuel maxItems [] 1 1 limit

end ClinicalTrials

/-- Python `len(v)`: defined for strings, lists and dicts, a `TypeError`
otherwise. -/
def pyLen : J → Except String Nat
  | J.str s => Except.ok s.length
  | J.arr xs => Except.ok xs.length
  | J.obj fs => Except.ok fs.length
  | _ => Except.error "TypeError: len"

/-- Python `v.get(k, "")`: defined for dicts (default the empty string),
an `AttributeError` otherwise. -/
def pyGet (v : J) (k : String) : Except String J :=
  match v with
  | J.obj fs =>
      (match lookupField k fs with
       | some x => Except.ok x
       | none => Except.ok (J.str ""))
  | _ => Except.error "AttributeError: get"

/-- Python `str(v)` as interpolated into an f-string, for scalar values.
Containers render as a placeholder here; Python would render their full
repr, and no theorem below evaluates that branch. -/
def pyStr : J → String
  | J.str s => s
  | J.num n => toString n
  | J.bool true => "True"
  | J.bool false => "False"
  | J.null => "None"
  | J.arr _ => "<list>"
  | J.obj _ => "<dict>"

/-- The mapping step shared by every `addGen3ExpectedFields` (adapters.py
lines 169-176, 296-308 and 385-397): with no mapping spec the item is
kept as is; otherwise the mapped fields either overlay the original item
(`keepOriginalFields`) or replace it. -/
def applyMappings (item : Fields) (mappings : Option RemoteMetadataAdapter.Mappings)
    (keepOriginalFields : Bool) : Except String Fields :=
  match mappings with
  | none => Except.ok item
  | some m => do
      let mapped ← RemoteMetadataAdapter.mapFields item m
      pure (if keepOriginalFields then pyUpdate item mapped else mapped)

namespace PDAPS

/-- Embedding of `PDAPS.addGen3ExpectedFields` (adapters.py lines
385-401).  After the mapping step the code evaluates
`results["investigators"]`: a missing key is a `KeyError`; a list value
reaches `results["investigators"].join(", ")`, and Python lists have no
`join` method, so an `AttributeError` is raised; any other value returns
the results unchanged. -/
def addGen3ExpectedFields (item : Fields) (mappings : Option RemoteMetadataAdapter.Mappings)
    (keepOriginalFields : Bool) : Except String Fields := do
  let results ← applyMappings item mappings keepOriginalFields
  match lookupField "investigators" results with
  | none => Except.error "KeyError: investigators"
  | some (J.arr _) => Except.error "AttributeError: join"
  | some _ => Except.ok results

/-- Embedding of `PDAPS.normalizeToGen3MDSFields` (adapters.py lines
403-429).  Each raw item is first passed through
`addGen3ExpectedFields`; an item with no `display_id` key is then skipped
(`continue`); otherwise the normalized record is stored under the
`display_id` value.  The embedding keys the record set by strings, so a
non-string `display_id` is rejected as a model restriction.  Finally the
per-item overrides are applied when given. -/
def normalizeToGen3MDSFields (data : List Fields)
    (mappings : Option RemoteMetadataAdapter.Mappings) (keepOriginalFields : Bool)
    (perItemValues : Option (List (String × Fields))) : Except String ItemMap := do
  let results ← data.foldlM
    (fun results item => do
      let normalized ← addGen3ExpectedFields item mappings keepOriginalFields
      match lookupField "display_id" item with
      | none => pure results
      | some (J.str s) =>
          pure (pyInsert results s (GenRecord.mk "discovery_metadata" normalized))
      | some _ => Except.error "nonStringKey")
    []
  pure (match perItemValues with
        | none => results
        | some pv => RemoteMetadataAdapter.setPerItemValues results pv)

end PDAPS

namespace ClinicalTrials

/-- Embedding of `ClinicalTrials.addGen3ExpectedFields` (adapters.py
lines 296-319).  After the mapping step, when the (flattened) item has a
`Location` key whose value has positive length, the location string is
built from the first element with `.get(..., "")` lookups — requiring the
value to be a non-empty list of dicts, a `TypeError`/`KeyError` otherwise
— and the `location` field is written onto the results. -/
def addGen3ExpectedFields (item : Fields) (mappings : Option RemoteMetadataAdapter.Mappings)
    (keepOriginalFields : Bool) : Except String Fields := do
  let results ← applyMappings item mappings keepOriginalFields
  let location ←
    match lookupField "Location" item with
    | none => pure (J.str "")
    | some v => do
        let n ← pyLen v
        if 0 < n then
          match v with
          | J.arr (first :: _) => do
              let fac ← pyGet first "LocationFacility"
              let city ← pyGet first "LocationCity"
              let st ← pyGet first "LocationState"
              pure (J.str (pyStr fac ++ ", " ++ pyStr city ++ ", " ++ pyStr st))
          | _ => Except.error "TypeError: Location"
        else pure (J.str "")
  pure (pyInsert results "location" location)

/-- Embedding of `ClinicalTrials.normalizeToGen3MDSFields` (adapters.py
lines 321-346).  Each raw item is replaced by its `Study` value (a
missing key is a `KeyError`), flattened, and passed through
`addGen3ExpectedFields`; the record is then stored under
`item["NCTId"]` of the flattened item — a missing `NCTId` key raises a
`KeyError`, there is no skip.  The embedding keys the record set by
strings, so a non-string `NCTId` is rejected as a model restriction.
Finally the per-item overrides are applied when given. -/
def normalizeToGen3MDSFields (data : List Fields)
    (mappings : Option RemoteMetadataAdapter.Mappings) (keepOriginalFields : Bool)
    (perItemValues : Option (List (String × Fields))) : Except String ItemMap := do
  let results ← data.foldlM
    (fun results rawItem => do
      let study ←
        match lookupField "Study" rawItem with
        | some v => pure v
        | none => Except.error "KeyError: Study"
      let fields ←
        match study with
        | J.obj fs => pure (flatten fs none)
        | _ => Except.error "AttributeError: items"
      let normalized ← addGen3ExpectedFields fields mappings keepOriginalFields
      let key ←
        match lookupField "NCTId" fields with
        | some (J.str s) => pure s
        | some _ => Except.error "nonStringKey"
        | none => Except.error "KeyError: NCTId"
      pure (pyInsert results key (GenRecord.mk "discovery_metadata" normalized)))
    []
  pure (match perItemValues with
        | none => results
        | some pv => RemoteMetadataAdapter.setPerItemValues results pv)

end ClinicalTrials

/-- A decoded JSON literal as produced by the filter visitor
(`visit_json_value`, query.py lines 468-469): a string, a boolean,
`null`, or a number kept as its lexeme (no claim depends on numeric
decoding). -/
inductive JLit where
  | str (s : String)
  | bool (b : Bool)
  | null
  | num (lexeme : String)

/-- The canonical filter AST built by `FilterVisitor` (query.py lines
403-472): scalar nodes `{name, op, val}`, compound nodes with a nested
scalar, and boolean nodes `{"and"|"or": operands}`. -/
inductive FilterAST where
  | scalar (name : String) (op : String) (val : JLit)
  | compound (name : String) (op : String) (inner : FilterAST)
  | boolOp (b : String) (operands : List FilterAST)

/-- Match a literal token at the head of the input (PEG string literal). -/
def pLit (pat : List Char) (inp : List Char) : Option (List Char) :=
  if startsWithChars pat inp then some (inp.drop pat.length) else none

/-- First literal of the list matching at the head of the input (PEG
ordered choice of string literals). -/
def pFirstLit (pats : List String) (inp : List Char) : Option (String × List Char) :=
  match pats with
  | [] => none
  | p :: ps =>
    match pLit p.data inp with
    | some rest => some (p, rest)
    | none => pFirstLit ps inp

/-- Characters of the `json_key` token class, the regex
`~"[A-Z 0-9_.]*"i` (query.py line 379): letters of either case, digits,
space, underscore and dot. -/
def isKeyChar (c : Char) : Bool :=
  (65 ≤ c.toNat && c.toNat ≤ 90) || (97 ≤ c.toNat && c.toNat ≤ 122) ||
    (48 ≤ c.toNat && c.toNat ≤ 57) || c == ' ' || c == '_' || c == '.'

/-- Greedy match of the (possibly empty) `json_key` token. -/
def pJsonKey (inp : List Char) : String × List Char :=
  (String.mk (inp.takeWhile isKeyChar), inp.dropWhile isKeyChar)

/-- Whether a character is a hexadecimal digit. -/
def isHexChar (c : Char) : Bool :=
  c.isDigit || (97 ≤ c.toNat && c.toNat ≤ 102) || (65 ≤ c.toNat && c.toNat ≤ 70)

/-- Value of a hexadecimal digit character. -/
def hexVal (c : Char) : Nat :=
  if c.isDigit then c.toNat - 48
  else if 97 ≤ c.toNat then c.toNat - 87
  else c.toNat - 55

/-- Decode the body of a JSON string literal, as `json.loads` does in
`visit_json_value`: plain characters stand for themselves, a backslash
introduces one of the JSON escapes (an unknown escape or a trailing
backslash makes the decode fail, which surfaces as a parse error). -/
def decodeJsonString : List Char → Option (List Char)
  | [] => some []
  | '\\' :: 'u' :: a :: b :: c :: d :: cs =>
    if isHexChar a && isHexChar b && isHexChar c && isHexChar d then
      (fun ds =>
        Char.ofNat (hexVal a * 4096 + hexVal b * 256 + hexVal c * 16 + hexVal d) :: ds)
        <$> decodeJsonString cs
    else none
  | '\\' :: e :: cs =>
    (match e with
     | '"' => (fun ds => '"' :: ds) <$> decodeJsonString cs
     | '\\' => (fun ds => '\\' :: ds) <$> decodeJsonString cs
     | '/' => (fun ds => '/' :: ds) <$> decodeJsonString cs
     | 'b' => (fun ds => Char.ofNat 8 :: ds) <$> decodeJsonString cs
     | 'f' => (fun ds => Char.ofNat 12 :: ds) <$> decodeJsonString cs
     | 'n' => (fun ds => '\n' :: ds) <$> decodeJsonString cs
     | 'r' => (fun ds => Char.ofNat 13 :: ds) <$> decodeJsonString cs
     | 't' => (fun ds => '\t' :: ds) <$> decodeJsonString cs
     | _ => none)
  | c :: cs => (fun ds => c :: ds) <$> decodeJsonString cs

/-- The `double_string` rule `~'"([^"])*"'` (query.py line 388): a double
quote, any characters other than a double quote, a closing double quote;
the body is then decoded as `json.loads` would. -/
def pDoubleString (inp : List Char) : Option (JLit × List Char) :=
  match inp with
  | '"' :: rest =>
    let inner := rest.takeWhile (fun c => c ≠ '"')
    let rest2 := rest.dropWhile (fun c => c ≠ '"')
    (match rest2 with
     | '"' :: rest3 =>
       (match decodeJsonString inner with
        | some ds => some (JLit.str (String.mk ds), rest3)
        | none => none)
     | _ => none)
  | _ => none

/-- The `true_false_null` rule (query.py line 389), ordered. -/
def pTrueFalseNull (inp : List Char) : Option (JLit × List Char) :=
  match pLit "true".data inp with
  | some r => some (JLit.bool true, r)
  | none =>
    match pLit "false".data inp with
    | some r => some (JLit.bool false, r)
    | none =>
      match pLit "null".data inp with
      | some r => some (JLit.null, r)
      | none => none

/-- The `digits = digit+` rule. -/
def pDigits (inp : List Char) : Option (List Char × List Char) :=
  let ds := inp.takeWhile Char.isDigit
  if ds.isEmpty then none else some (ds, inp.drop ds.length)

/-- The `int` rule (query.py line 392): an optional minus sign, then
either a nonzero digit followed by one or more digits, or a single
digit. -/
def pInt (inp : List Char) : Option (List Char × List Char) :=
  let signAndRest : List Char × List Char :=
    match inp with
    | '-' :: r => (['-'], r)
    | _ => ([], inp)
  match signAndRest.2 with
  | c :: r2 =>
    if 49 ≤ c.toNat && c.toNat ≤ 57 then
      match pDigits r2 with
      | some (ds, r3) => some (signAndRest.1 ++ c :: ds, r3)
      | none => some (signAndRest.1 ++ [c], r2)
    else if c.isDigit then some (signAndRest.1 ++ [c], r2)
    else none
  | [] => none

/-- The `frac = "." digits` rule. -/
def pFrac (inp : List Char) : Option (List Char × List Char) :=
  match inp with
  | '.' :: r =>
    (match pDigits r with
     | some (ds, r2) => some ('.' :: ds, r2)
     | none => none)
  | _ => none

/-- The `exp = e digits` rule with `e` one of `e+ e- e E+ E- E`,
ordered. -/
def pExpPart (inp : List Char) : Option (List Char × List Char) :=
  match pFirstLit ["e+", "e-", "e", "E+", "E-", "E"] inp with
  | some (e, r) =>
    (match pDigits r with
     | some (ds, r2) => some (e.data ++ ds, r2)
     | none => none)
  | none => none

/-- The `number` rule (query.py line 390), the ordered choice
`(int frac exp) / (int exp) / (int frac) / int`, keeping the lexeme. -/
def pNumber (inp : List Char) : Option (JLit × List Char) :=
  match pInt inp with
  | none => none
  | some (i, r1) =>
    match pFrac r1 with
    | some (f, r2) =>
      (match pExpPart r2 with
       | some (e, r3) => some (JLit.num (String.mk (i ++ f ++ e)), r3)
       | none => some (JLit.num (String.mk (i ++ f)), r2))
    | none =>
      match pExpPart r1 with
      | some (e, r2) => some (JLit.num (String.mk (i ++ e)), r2)
      | none => some (JLit.num (String.mk i), r1)

/-- The `json_value` rule (query.py line 386), the ordered choice
`double_string / true_false_null / number`. -/
def pJsonValue (inp : List Char) : Option (JLit × List Char) :=
  match pDoubleString inp with
  | some r => some r
  | none =>
    match pTrueFalseNull inp with
    | some r => some r
    | none => pNumber inp

/-- The `scalar_filter` rule (query.py line 375):
`open json_key separator scalar_operator separator json_value close`,
built directly into the visitor's scalar node. -/
def pScalarFilter (inp : List Char) : Option (FilterAST × List Char) := do
  let r1 ← pLit ['('] inp
  let kr := pJsonKey r1
  let r3 ← pLit [','] kr.2
  let (op, r4) ← pFirstLit [":eq", ":ne", ":gte", ":gt", ":lte", ":lt", ":like"] r3
  let r5 ← pLit [','] r4
  let (v, r6) ← pJsonValue r5
  let r7 ← pLit [')'] r6
  pure (FilterAST.scalar kr.1 op v, r7)

/-- The `compound_filter` rule (query.py line 376):
`open json_key separator compound_operator separator scalar_filter
close`. -/
def pCompoundFilter (inp : List Char) : Option (FilterAST × List Char) := do
  let r1 ← pLit ['('] inp
  let kr := pJsonKey r1
  let r3 ← pLit [','] kr.2
  let (op, r4) ← pFirstLit [":all", ":any"] r3
  let r5 ← pLit [','] r4
  let (inner, r6) ← pScalarFilter r5
  let r7 ← pLit [')'] r6
  pure (FilterAST.compound kr.1 op inner, r7)

/-- The `boolean_operands = (separator specific_filter)+` loop, greedy as
in a PEG: parse comma-prefixed filters while possible, backtracking to
before the comma when the nested filter fails.  The nested filter parser
is passed in to keep the recursion structural. -/
def pOperandList (pf : List Char → Option (FilterAST × List Char)) :
    Nat → List Char → List FilterAST × List Char
  | 0, inp => ([], inp)
  | fuel + 1, inp =>
    match pLit [','] inp with
    | none => ([], inp)
    | some r1 =>
      match pf r1 with
      | none => ([], inp)
      | some (ast, r2) =>
        let rec3 := pOperandList pf fuel r2
        (ast :: rec3.1, rec3.2)

/-- The `filter = scalar_filter / compound_filter / boolean_filter`
ordered choice (query.py line 369), with
`boolean_filter = open boolean boolean_operands close` inlined; the
`fuel` argument bounds the recursion depth (an embedding artifact: the
grammar itself is recursive, and `parse_filter` below supplies ample
fuel). -/
def pFilter : Nat → List Char → Option (FilterAST × List Char)
  | 0, _ => none
  | fuel + 1, inp =>
    match pScalarFilter inp with
    | some r => some r
    | none =>
      match pCompoundFilter inp with
      | some r => some r
      | none => do
        let r1 ← pLit ['('] inp
        let (b, r2) ← pFirstLit ["and", "or"] r1
        let opsAndRest := pOperandList (pFilter fuel) (r2.length + 1) r2
        match opsAndRest.1 with
        | [] => none
        | ops => do
          let r4 ← pLit [')'] opsAndRest.2
          pure (FilterAST.boolOp b ops, r4)

/-- Embedding of `parse_filter` composed with the `FilterVisitor` walk
(query.py lines 350-472).  A falsy (empty) filter string yields no
filter; otherwise the grammar must match the entire string
(`grammar.parse`): a leftover suffix is an `IncompleteParseError` and a
failed match a `ParseError`, both modelled as `Except.error`. -/
def parse_filter (filterString : String) : Except String (Option FilterAST) :=
  if filterString = "" then Except.ok none
  else
    match pFilter (filterString.data.length + 1) filterString.data with
    | some (ast, []) => Except.ok (some ast)
    | some (_, _ :: _) => Except.error "IncompleteParseError"
    | none => Except.error "ParseError"

/-- Outcome of the filter handling in `search_metadata_helper`: either a
query runs (with an optional filter tree), or the request is rejected
with HTTP 400 Bad Request. -/
inductive SearchOutcome where
  | results (filterDict : Option FilterAST)
  | badRequest

/-- Embedding of the filter handling of `search_metadata_helper`
(query.py lines 535-544): the filter string is parsed and visited inside
a `try` block whose `except` clause catches `IncompleteParseError`,
`ParseError` and `VisitationError` and raises HTTP 400 with the generic
message `filter URL query param syntax is invalid`; on success the
(possibly absent) filter tree drives the query, an absent tree adding no
WHERE clause. -/
def search_metadata_helper (filterString : String) : SearchOutcome :=
  match parse_filter filterString with
  | Except.ok t => SearchOutcome.results t
  | Except.error _ => SearchOutcome.badRequest

/-- Whether an item carries an `investigators` key whose value is not a
list — the condition under which `PDAPS.addGen3ExpectedFields` (with no
mapping spec) returns the item unchanged instead of raising. -/
def hasNonListInvestigators (item : Fields) : Bool :=
  match lookupField "investigators" item with
  | some (J.arr _) => false
  | some _ => true
  | none => false

/-- Whether an item has no `display_id` key or a string one (the
embedding keys record sets by strings). -/
def displayIdOk (item : Fields) : Bool :=
  match lookupField "display_id" item with
  | some (J.str _) => true
  | none => true
  | some _ => false

/-- The string `display_id` of an item, when present. -/
def pdapsIdOf (item : Fields) : Option String :=
  match lookupField "display_id" item with
  | some (J.str s) => some s
  | _ => none

/-- Append a key to a key list unless it is already present: the key
list effect of one Python dict insertion. -/
def insertKeyName (ks : List String) (k : String) : List String :=
  if ks.any (fun x => x == k) then ks else ks ++ [k]

@[simp] lemma except_ok_bind {α β : Type} (a : α) (f : α → Except String β) :
    (Except.ok a >>= fun v => f v) = f a := rfl

@[simp] lemma except_error_bind {α β : Type} (e : String) (f : α → Except String β) :
    ((Except.error e : Except String α) >>= fun v => f v) = Except.error e := rfl

lemma length_filter_eq_iff_all {l : List J} {p : J → Bool} :
    l.length = (List.filter p l).length ↔ ∀ x ∈ l, p x = true := by
  induction l with
  | nil => simp
  | cons a l ih =>
    by_cases hpa : p a = true
    · simp [List.filter_cons, hpa, ih]
    · simp only [List.filter_cons, hpa]
      constructor
      · intro h
        exfalso
        have hle := List.length_filter_le p l
        simp only [Bool.false_eq_true, if_false, List.length_cons] at h
        omega
      · intro h
        exact absurd (h a (List.mem_cons_self a l)) hpa

/-- C2: the compiled `:all` filter is true exactly when the count of
array elements satisfying the inner scalar comparison equals the array
length, which is universal quantification over the elements — vacuously
true for the empty array, as the second conjunct states explicitly. -/
theorem get_all_sql_clause_iff_forall (arr : List J) (sat : J → Bool) :
    (get_all_sql_clause arr sat = true ↔ ∀ x ∈ arr, sat x = true) ∧
      get_all_sql_clause [] sat = true := by
  constructor
  · unfold get_all_sql_clause
    rw [beq_iff_eq]
    exact length_filter_eq_iff_all
  · rfl

/-- C1: `get_json_path_value` returns the empty string for a null
expression and for an expression matching nothing, the unwrapped value
for exactly one match, and the ordered sequence of matched values for
more than one match. -/
theorem get_json_path_value_arity (d : J) :
    get_json_path_value none d = Except.ok (J.str "") ∧
    ∀ (e : String) (p : PathExpr), parsePathString e = some p →
      (findMatches p d = [] → get_json_path_value (some e) d = Except.ok (J.str "")) ∧
      (∀ x, findMatches p d = [x] → get_json_path_value (some e) d = Except.ok x) ∧
      (2 ≤ (findMatches p d).length →
        get_json_path_value (some e) d = Except.ok (J.arr (findMatches p d))) := by
  refine ⟨rfl, ?_⟩
  intro e p hp
  refine ⟨?_, ?_, ?_⟩
  · intro h
    simp [get_json_path_value, hp, h]
  · intro x h
    simp [get_json_path_value, hp, h]
  · intro h
    match hm : findMatches p d with
    | [] => rw [hm] at h; simp at h
    | [x] => rw [hm] at h; simp at h
    | a :: b :: rest =>
      simp [get_json_path_value, hp, hm]

/-- Witness for C1 on the documents of spec section 8: a path with three
matches, one match, and no match. -/
theorem get_json_path_value_arity_witness :
    get_json_path_value (some "xs[*].k")
        (J.obj [("xs", J.arr [J.obj [("k", J.num 1)], J.obj [("k", J.num 2)],
          J.obj [("k", J.num 3)]])])
      = Except.ok (J.arr [J.num 1, J.num 2, J.num 3]) ∧
    get_json_path_value (some "a.b") (J.obj [("a", J.obj [("b", J.str "v")])])
      = Except.ok (J.str "v") ∧
    get_json_path_value (some "zz") (J.obj [("a", J.num 1)]) = Except.ok (J.str "") := by
  refine ⟨?_, ?_, ?_⟩
  · exact ((get_json_path_value_arity _).2 "xs[*].k"
      [PathStep.key "xs", PathStep.wild, PathStep.key "k"] rfl).2.2 (by decide)
  · exact ((get_json_path_value_arity _).2 "a.b"
      [PathStep.key "a", PathStep.key "b"] rfl).2.1 (J.str "v") rfl
  · exact ((get_json_path_value_arity _).2 "zz" [PathStep.key "zz"] rfl).1 rfl

/-- C3: the empty filter string yields no filter (the query runs with no
WHERE clause), every string the grammar rejects yields HTTP 400 Bad
Request, and every accepted string yields a running query — so a
syntactically invalid filter is never a server fault nor a silent empty
result. -/
theorem search_metadata_filter_badrequest (s : String) :
    search_metadata_helper "" = SearchOutcome.results none ∧
    (∀ e, parse_filter s = Except.error e → search_metadata_helper s = SearchOutcome.badRequest) ∧
    (∀ t, parse_filter s = Except.ok t → search_metadata_helper s = SearchOutcome.results t) := by
  refine ⟨rfl, ?_, ?_⟩
  · intro e h
    simp [search_metadata_helper, h]
  · intro t h
    simp [search_metadata_helper, h]

/-- Witness for C3: an unbalanced filter string is rejected with 400, a
well-formed one runs. -/
theorem search_metadata_filter_badrequest_witness :
    search_metadata_helper "(a,:eq" = SearchOutcome.badRequest ∧
    search_metadata_helper "(message,:eq,\"morning\")"
      = SearchOutcome.results
          (some (FilterAST.scalar "message" ":eq" (JLit.str "morning"))) := by
  constructor
  · exact (search_metadata_filter_badrequest "(a,:eq").2.1 "ParseError" rfl
  · exact (search_metadata_filter_badrequest "(message,:eq,\"morning\")").2.2 _ rfl

/-- C9: a filter name not present in the `FieldFilters` registry applies
as the identity: the value is returned unchanged and no error is
raised. -/
theorem fieldfilters_execute_unknown (name : String) (value : J)
    (h : name ∉ FieldFilters.filters.map Prod.fst) :
    FieldFilters.execute name value = value := by
  have hfind : List.find? (fun p => p.1 == name) FieldFilters.filters = none := by
    rw [List.find?_eq_none]
    intro x hx
    simp only [beq_eq_false_iff_ne, ne_eq, beq_iff_eq]
    intro heq
    exact h (heq ▸ List.mem_map_of_mem Prod.fst hx)
  simp [FieldFilters.execute, hfind]

/-- Witness for C9: the unregistered name `bogus` leaves a value
unchanged. -/
theorem fieldfilters_execute_unknown_witness :
    ("bogus" ∉ FieldFilters.filters.map Prod.fst) ∧
      FieldFilters.execute "bogus" (J.num 7) = J.num 7 :=
  ⟨by decide, fieldfilters_execute_unknown "bogus" (J.num 7) (by decide)⟩

/-- C10: whenever the field set produced by the mapping step has a list
value under `investigators`, `PDAPS.addGen3ExpectedFields` raises an
`AttributeError` (Python lists have no `join` method) instead of
producing a comma-joined string, so PDAPS normalization is not total on
such items. -/
theorem pdaps_addgen3_investigators_list (item results : Fields)
    (mappings : Option RemoteMetadataAdapter.Mappings) (keep : Bool) (xs : List J)
    (h1 : applyMappings item mappings keep = Except.ok results)
    (h2 : lookupField "investigators" results = some (J.arr xs)) :
    PDAPS.addGen3ExpectedFields item mappings keep
      = Except.error "AttributeError: join" := by
  simp [PDAPS.addGen3ExpectedFields, h1, h2, Except.bind]

/-- Witness for C10: an item whose `investigators` field is a list makes
`PDAPS.addGen3ExpectedFields` fail. -/
theorem pdaps_addgen3_investigators_list_witness :
    PDAPS.addGen3ExpectedFields [("investigators", J.arr [J.str "a", J.str "b"])]
        none true
      = Except.error "AttributeError: join" :=
  pdaps_addgen3_investigators_list _ _ none true [J.str "a", J.str "b"] rfl rfl

/-- C7: evaluating `flatten` at the nested input shows the nested value
is keyed by its bare leaf key `b`, not by the dot-joined path `a.b` the
spec describes: the recursive call in the source passes `False` for
`parent_key` instead of the freshly built `new_key`, so the built key and
the `separator` parameter are dead for nested values. -/
theorem flatten_drops_parent_path :
    flatten [("a", J.obj [("b", J.num 1)]), ("c", J.num 2)] none
      = [("b", J.num 1), ("c", J.num 2)] := by
  simp [flatten, flattenCollect, pyDict, pyInsert]

/-- Counterexample for C6: with 4 studies on the server, batch size 2 and
an overall cap of 3, the fetch returns all 4 accumulated items — more
than the cap, since the final batch is not truncated. -/
theorem clinicaltrials_fetch_exceeds_cap :
    3 < (ClinicalTrials.getRemoteDataAsJson (List.range 4) 2 (some 3) 5).length := by
  decide

lemma fetchLoop_length_lt {α : Type} (studies : List α) (batchSize : Nat) :
    ∀ (fuel m : Nat) (acc : List α) (offset remaining limit : Nat),
      limit ≤ batchSize → acc.length < m →
      (ClinicalTrials.fetchLoop studies batchSize fuel (some m) acc offset
          remaining limit).length < m + batchSize := by
  intro fuel
  induction fuel with
  | zero =>
    intro m acc offset remaining limit h1 h2
    unfold ClinicalTrials.fetchLoop
    omega
  | succ fuel ih =>
    intro m acc offset remaining limit h1 h2
    unfold ClinicalTrials.fetchLoop
    by_cases hr : remaining = 0
    · rw [if_pos hr]
      omega
    · rw [if_neg hr]
      by_cases hs : studies.length = 0
      · rw [if_pos hs]
        omega
      · rw [if_neg hs]
        have hbatch : (ClinicalTrials.serverBatch studies offset limit).length ≤ limit := by
          unfold ClinicalTrials.serverBatch
          exact List.length_take_le limit _
        set m2 := if offset = 1 then min m studies.length else m with hm2def
        have hm2le : m2 ≤ m := by
          by_cases ho : offset = 1 <;> simp [hm2def, ho, Nat.min_le_left]
        have hmap :
            (if offset = 1 then (some m).map (fun x => min x studies.length) else some m)
              = some m2 := by
          by_cases ho : offset = 1 <;> simp [hm2def, ho]
        rw [hmap]
        set batch := ClinicalTrials.serverBatch studies offset limit with hbdef
        simp only [decide_eq_true_eq]
        by_cases hc : m2 ≤ (acc ++ batch).length
        · rw [if_pos hc, List.length_append]
          omega
        · rw [if_neg hc]
          have hrec := ih m2 (acc ++ batch) (offset + batch.length)
            ((if offset = 1 then studies.length else remaining) - batch.length)
            (min ((if offset = 1 then studies.length else remaining) - batch.length) batchSize)
            (Nat.min_le_right _ _)
            (Nat.lt_of_not_le hc)
          exact Nat.lt_of_lt_of_le hrec (Nat.add_le_add_right hm2le batchSize)

/-- C6 amended: with an overall cap `m ≥ 1` set, the ClinicalTrials
fetch stops requesting after the first batch that brings the accumulated
count to the cap, but does not truncate that batch: the result may
exceed `m` (see the counterexample) yet always stays below
`m + batchSize`. -/
theorem clinicaltrials_fetch_cap_bound {α : Type} (studies : List α)
    (batchSize m fuel : Nat) (hm : 1 ≤ m) :
    (ClinicalTrials.getRemoteDataAsJson studies batchSize (some m) fuel).length
      < m + batchSize := by
  unfold ClinicalTrials.getRemoteDataAsJson
  exact fetchLoop_length_lt studies batchSize fuel m [] 1 1 (min m batchSize)
    (Nat.min_le_right m batchSize) (by simpa using hm)

/-- Witness for the amended C6 bound at the counterexample input. -/
theorem clinicaltrials_fetch_cap_bound_witness :
    (1 : Nat) ≤ 3 ∧
      (ClinicalTrials.getRemoteDataAsJson (List.range 4) 2 (some 3) 5).length < 3 + 2 :=
  ⟨by decide, clinicaltrials_fetch_cap_bound (List.range 4) 2 3 5 (by decide)⟩

lemma map_id_of_fix {α : Type} {l : List α} {f : α → α} (h : ∀ x ∈ l, f x = x) :
    l.map f = l := by
  induction l with
  | nil => rfl
  | cons a l ih =>
    rw [List.map_cons, h a (List.mem_cons_self a l), ih]
    intro x hx
    exact h x (List.mem_cons_of_mem a hx)

lemma setKeyIfPresent_keys (d : Fields) (k : String) (v : J) :
    (setKeyIfPresent d k v).map Prod.fst = d.map Prod.fst := by
  unfold setKeyIfPresent
  by_cases h : d.any (fun p => p.1 == k)
  · rw [if_pos h, List.map_map]
    apply List.map_congr_left
    intro p _
    show (if (p.1 == k) = true then (p.1, v) else p).1 = p.1
    split <;> rfl
  · rw [if_neg h]

lemma applyOverrides_keys (values : Fields) : ∀ d : Fields,
    (applyOverrides d values).map Prod.fst = d.map Prod.fst := by
  induction values with
  | nil => intro d; rfl
  | cons kv rest ih =>
    intro d
    show (applyOverrides (setKeyIfPresent d kv.1 kv.2) rest).map Prod.fst = _
    rw [ih, setKeyIfPresent_keys]

lemma setPerItemValues_eq_map (pv : List (String × Fields)) : ∀ (items : ItemMap),
    RemoteMetadataAdapter.setPerItemValues items pv
      = items.map (fun p => (p.1,
          pv.foldl (fun r q =>
            if p.1 == q.1 then
              { r with gen3Discovery := applyOverrides r.gen3Discovery q.2 }
            else r) p.2)) := by
  induction pv with
  | nil =>
    intro items
    show items = _
    rw [map_id_of_fix]
    intro p _
    rfl
  | cons q rest ih =>
    intro items
    have hstep : RemoteMetadataAdapter.setPerItemValues items (q :: rest)
        = RemoteMetadataAdapter.setPerItemValues
            (items.map (fun p =>
              if p.1 == q.1 then
                (p.1, { p.2 with gen3Discovery := applyOverrides p.2.gen3Discovery q.2 })
              else p)) rest := by
      show List.foldl _ items (q :: rest) = _
      rw [List.foldl_cons]
      congr 1
      by_cases h : items.any (fun p => p.1 == q.1)
      · simp only [h, if_true]
      · simp only [h, Bool.false_eq_true, if_false]
        rw [map_id_of_fix]
        intro p hp
        have := List.any_eq_false.mp (Bool.not_eq_true _ ▸ h) p hp
        simp only [this, Bool.false_eq_true, if_false]
    rw [hstep, ih, List.map_map]
    apply List.map_congr_left
    intro p _
    by_cases hp : (p.1 == q.1) = true
    · simp only [Function.comp, hp, if_true, List.foldl_cons]
    · simp only [Function.comp, hp, Bool.false_eq_true, if_false, List.foldl_cons]

lemma foldl_override_shape (pv : List (String × Fields)) (idv : String) :
    ∀ r : GenRecord,
      (pv.foldl (fun r q =>
        if idv == q.1 then
          { r with gen3Discovery := applyOverrides r.gen3Discovery q.2 }
        else r) r).guidType = r.guidType ∧
      (pv.foldl (fun r q =>
        if idv == q.1 then
          { r with gen3Discovery := applyOverrides r.gen3Discovery q.2 }
        else r) r).gen3Discovery.map Prod.fst = r.gen3Discovery.map Prod.fst := by
  induction pv with
  | nil => intro r; exact ⟨rfl, rfl⟩
  | cons q rest ih =>
    intro r
    rw [List.foldl_cons]
    by_cases hq : (idv == q.1) = true
    · simp only [hq, if_true]
      refine ⟨(ih _).1, ?_⟩
      rw [(ih _).2]
      exact applyOverrides_keys q.2 r.gen3Discovery
    · simp only [hq, Bool.false_eq_true, if_false]
      exact ih r

lemma foldl_override_no_match (pv : List (String × Fields)) (idv : String)
    (h : ∀ q ∈ pv, q.1 ≠ idv) (r : GenRecord) :
    pv.foldl (fun r q =>
      if idv == q.1 then
        { r with gen3Discovery := applyOverrides r.gen3Discovery q.2 }
      else r) r = r := by
  induction pv with
  | nil => rfl
  | cons q rest ih =>
    rw [List.foldl_cons]
    have hq : (idv == q.1) = false := by
      rw [beq_eq_false_iff_ne]
      exact fun he => h q (List.mem_cons_self q rest) he.symm
    simp only [hq, Bool.false_eq_true, if_false]
    exact ih (fun x hx => h x (List.mem_cons_of_mem q hx))

lemma mem_zip_map {α : Type} (f : α → α) :
    ∀ (l : List α) (pr : α × α), pr ∈ List.zip l (l.map f) → pr.2 = f pr.1 := by
  intro l
  induction l with
  | nil => intro pr h; cases h
  | cons a l ih =>
    intro pr h
    rw [List.map_cons, List.zip_cons_cons] at h
    cases h with
    | head => rfl
    | tail _ htail => exact ih pr htail

/-- C4: the per-item override merge never changes the record structure —
ids, `_guid_type` and the key list of every discovery dict are preserved
(so no new field key is ever introduced) — and a record whose id is
absent from the override map is left entirely unchanged. -/
theorem setPerItemValues_frame (items : ItemMap) (pv : List (String × Fields)) :
    (RemoteMetadataAdapter.setPerItemValues items pv).map
        (fun p => (p.1, p.2.guidType, p.2.gen3Discovery.map Prod.fst))
      = items.map (fun p => (p.1, p.2.guidType, p.2.gen3Discovery.map Prod.fst)) ∧
    ∀ pr ∈ List.zip items (RemoteMetadataAdapter.setPerItemValues items pv),
      (∀ q ∈ pv, q.1 ≠ pr.1.1) → pr.2 = pr.1 := by
  constructor
  · rw [setPerItemValues_eq_map, List.map_map]
    apply List.map_congr_left
    intro p _
    have h := foldl_override_shape pv p.1 p.2
    simp only [Function.comp]
    rw [h.1, h.2]
  · intro pr hpr hq
    rw [setPerItemValues_eq_map] at hpr
    have h2 := mem_zip_map _ items pr hpr
    rw [h2, foldl_override_no_match pv pr.1.1 hq pr.1.2]

/-- Witness for C4 at a concrete record set: the override for `g1`
changes only the existing key `a` (the fresh key `zz` is dropped), and
the record `g2`, absent from the override map, is unchanged. -/
theorem setPerItemValues_frame_witness :
    (RemoteMetadataAdapter.setPerItemValues
        [("g1", GenRecord.mk "discovery_metadata" [("a", J.num 1)]),
         ("g2", GenRecord.mk "discovery_metadata" [("b", J.num 2)])]
        [("g1", [("a", J.num 7), ("zz", J.num 9)])]).map
        (fun p => (p.1, p.2.guidType, p.2.gen3Discovery.map Prod.fst))
      = [("g1", "discovery_metadata", ["a"]), ("g2", "discovery_metadata", ["b"])] ∧
    ((("g2", GenRecord.mk "discovery_metadata" [("b", J.num 2)]),
      ("g2", GenRecord.mk "discovery_metadata" [("b", J.num 2)])) :
        (String × GenRecord) × (String × GenRecord)).2
      = (("g2", GenRecord.mk "discovery_metadata" [("b", J.num 2)]),
         ("g2", GenRecord.mk "discovery_metadata" [("b", J.num 2)])).1 := by
  constructor
  · rw [(setPerItemValues_frame _ _).1]
    rfl
  · exact (setPerItemValues_frame
      [("g1", GenRecord.mk "discovery_metadata" [("a", J.num 1)]),
       ("g2", GenRecord.mk "discovery_metadata" [("b", J.num 2)])]
      [("g1", [("a", J.num 7), ("zz", J.num 9)])]).2
      (("g2", GenRecord.mk "discovery_metadata" [("b", J.num 2)]),
       ("g2", GenRecord.mk "discovery_metadata" [("b", J.num 2)]))
      (List.Mem.tail _ (List.Mem.head _))
      (by intro q hq; simp at hq; subst hq; decide)

@[simp] lemma except_map_ok {α β : Type} (f : α → β) (a : α) :
    (Except.ok a : Except String α).map f = Except.ok (f a) := rfl

@[simp] lemma except_map_error {α β : Type} (f : α → β) (e : String) :
    (Except.error e : Except String α).map f = Except.error e := rfl

lemma pyInsert_of_not_mem {β : Type} (d : List (String × β)) (k : String) (v : β)
    (h : d.any (fun p => p.1 == k) = false) : pyInsert d k v = d ++ [(k, v)] := by
  simp [pyInsert, h]

@[simp] lemma except_pure_eq_ok {α : Type} (a : α) :
    (pure a : Except String α) = Except.ok a := rfl

@[simp] lemma except_bind_ok {α β : Type} (a : α) (f : α → Except String β) :
    (Except.ok a : Except String α).bind f = f a := rfl

@[simp] lemma except_bind_err {α β : Type} (e : String) (f : α → Except String β) :
    (Except.error e : Except String α).bind f = Except.error e := rfl

lemma mapFields_go (item : Fields) :
    ∀ (ms : RemoteMetadataAdapter.Mappings) (acc : Fields),
      (∀ kv ∈ ms, acc.any (fun p => p.1 == kv.1) = false) →
      (ms.map Prod.fst).Nodup →
      List.foldlM
        (fun results kv =>
          match kv.2 with
          | RemoteMetadataAdapter.MappingVal.structured pathExpr filterNames =>
              (get_json_path_value pathExpr (J.obj item)).bind fun fieldValue =>
                Except.ok (pyInsert results kv.1
                  (filterNames.foldl (fun v f => FieldFilters.execute f v) fieldValue))
          | RemoteMetadataAdapter.MappingVal.literal s =>
              if containsChars "path:".data s.data then
                (get_json_path_value (some (pySplitSecond "path:" s)) (J.obj item)).bind
                  fun fieldValue => Except.ok (pyInsert results kv.1 fieldValue)
              else
                Except.ok (pyInsert results kv.1 (J.str s)))
        acc ms
      = (RemoteMetadataAdapter.mapFieldsSpec item ms).map (fun l => acc ++ l) := by
  intro ms
  induction ms with
  | nil =>
    intro acc _ _
    show pure acc = Except.map (fun l => acc ++ l) (RemoteMetadataAdapter.mapFieldsSpec item [])
    have h0 : RemoteMetadataAdapter.mapFieldsSpec item [] = pure [] := by
      show List.mapM _ [] = _
      rw [List.mapM_nil]
    rw [h0]
    show Except.ok acc = Except.ok (acc ++ [])
    rw [List.append_nil]
  | cons kv rest ih =>
    intro acc hdisj hnodup
    obtain ⟨k, mv⟩ := kv
    have hk : acc.any (fun p => p.1 == k) = false :=
      hdisj (k, mv) (List.mem_cons_self _ _)
    rw [List.map_cons] at hnodup
    have hnodups := List.nodup_cons.mp hnodup
    have hdisj2 : ∀ (v : J), ∀ kv' ∈ rest,
        (pyInsert acc k v).any (fun p => p.1 == kv'.1) = false := by
      intro v kv' hkv'
      rw [pyInsert_of_not_mem _ _ _ hk, List.any_append]
      have h1 := hdisj kv' (List.mem_cons_of_mem _ hkv')
      have h2 : (k == kv'.1) = false := by
        rw [beq_eq_false_iff_ne]
        intro he
        apply hnodups.1
        show k ∈ List.map Prod.fst rest
        rw [he]
        exact List.mem_map_of_mem Prod.fst hkv'
      simp [h1, h2]
    cases mv with
    | structured pathExpr filterNames =>
      have hspec : RemoteMetadataAdapter.mapFieldsSpec item
            ((k, RemoteMetadataAdapter.MappingVal.structured pathExpr filterNames) :: rest)
          = ((get_json_path_value pathExpr (J.obj item)).bind fun v =>
                Except.ok ((k, filterNames.foldl (fun v f => FieldFilters.execute f v) v) :
                  String × J))
              >>= fun pr => RemoteMetadataAdapter.mapFieldsSpec item rest
              >>= fun l => pure (pr :: l) := by
        show List.mapM _ _ = _
        rw [List.mapM_cons]
        rfl
      rw [hspec]
      simp only [List.foldlM_cons]
      cases hE : get_json_path_value pathExpr (J.obj item) with
      | error e => simp [hE]
      | ok v =>
        simp only [hE, except_bind_ok, except_ok_bind]
        rw [ih _ (hdisj2 _) hnodups.2]
        cases hRest : RemoteMetadataAdapter.mapFieldsSpec item rest with
        | error e => simp
        | ok l =>
          simp only [except_map_ok, except_ok_bind]
          rw [pyInsert_of_not_mem _ _ _ hk]
          simp
    | literal s =>
      have hspec : RemoteMetadataAdapter.mapFieldsSpec item
            ((k, RemoteMetadataAdapter.MappingVal.literal s) :: rest)
          = (if containsChars "path:".data s.data then
                (get_json_path_value (some (pySplitSecond "path:" s)) (J.obj item)).bind
                  fun v => Except.ok ((k, v) : String × J)
              else
                Except.ok ((k, J.str s) : String × J))
              >>= fun pr => RemoteMetadataAdapter.mapFieldsSpec item rest
              >>= fun l => pure (pr :: l) := by
        show List.mapM _ _ = _
        rw [List.mapM_cons]
        rfl
      rw [hspec]
      simp only [List.foldlM_cons]
      by_cases hmk : containsChars "path:".data s.data = true
      · simp only [hmk, if_true]
        cases hE : get_json_path_value (some (pySplitSecond "path:" s)) (J.obj item) with
        | error e => simp [hE]
        | ok v =>
          simp only [hE, except_bind_ok, except_ok_bind]
          rw [ih _ (hdisj2 _) hnodups.2]
          cases hRest : RemoteMetadataAdapter.mapFieldsSpec item rest with
          | error e => simp
          | ok l =>
            simp only [except_map_ok, except_ok_bind]
            rw [pyInsert_of_not_mem _ _ _ hk]
            simp
      · simp only [hmk, Bool.false_eq_true, if_false, except_ok_bind]
        rw [ih _ (hdisj2 _) hnodups.2]
        cases hRest : RemoteMetadataAdapter.mapFieldsSpec item rest with
        | error e => simp
        | ok l =>
          simp only [except_map_ok, except_ok_bind]
          rw [pyInsert_of_not_mem _ _ _ hk]
          simp

/-- C5: with distinct declared output fields (mapping specs are Python
dicts), `mapFields` produces exactly the field-by-field result that spec
section 4.3 describes: a structured spec resolves its path and applies
the named filters in declared order left to right, a `path:` string
resolves the remainder as a path with no filters, and any other string
is taken verbatim. -/
theorem mapFields_matches_spec (item : Fields) (ms : RemoteMetadataAdapter.Mappings)
    (h : (ms.map Prod.fst).Nodup) :
    RemoteMetadataAdapter.mapFields item ms
      = RemoteMetadataAdapter.mapFieldsSpec item ms := by
  have hgo := mapFields_go item ms [] (fun kv _ => rfl) h
  show List.foldlM _ [] ms = _
  rw [hgo]
  cases RemoteMetadataAdapter.mapFieldsSpec item ms <;> simp

/-- Witness for C5 on the round-trip example of spec section 8: the spec
`x = path a.b with strip_html` maps the record to `x = hi`. -/
theorem mapFields_matches_spec_witness :
    RemoteMetadataAdapter.mapFields
        [("a", J.obj [("b", J.str "<b>hi</b>")])]
        [("x", RemoteMetadataAdapter.MappingVal.structured (some "a.b") ["strip_html"])]
      = Except.ok [("x", J.str "hi")] := by
  rw [mapFields_matches_spec _ _ (by simp)]
  rfl

lemma pyInsert_keys {β : Type} (d : List (String × β)) (k : String) (v : β) :
    (pyInsert d k v).map Prod.fst = insertKeyName (d.map Prod.fst) k := by
  unfold pyInsert insertKeyName
  have hany : (d.map Prod.fst).any (fun x => x == k) = d.any (fun p => p.1 == k) := by
    induction d with
    | nil => rfl
    | cons a l ih => simp [List.any_cons, ih]
  by_cases h : d.any (fun p => p.1 == k) = true
  · rw [if_pos h, if_pos (hany.trans h), List.map_map]
    apply List.map_congr_left
    intro p _
    show Prod.fst (if (p.1 == k) = true then (p.1, v) else p) = p.1
    split <;> rfl
  · rw [if_neg h, if_neg fun hc => h (hany.symm.trans hc), List.map_append]
    rfl

lemma pdaps_addgen3_nonlist (item : Fields) (h : hasNonListInvestigators item = true) :
    PDAPS.addGen3ExpectedFields item none true = Except.ok item := by
  unfold PDAPS.addGen3ExpectedFields
  unfold hasNonListInvestigators at h
  cases hlook : lookupField "investigators" item with
  | none => rw [hlook] at h; simp at h
  | some v =>
    rw [hlook] at h
    cases v <;> simp_all [applyMappings, hlook]

lemma pdaps_normalize_go :
    ∀ (data : List Fields) (acc : ItemMap),
      data.all hasNonListInvestigators = true →
      data.all displayIdOk = true →
      ∃ r, List.foldlM
          (fun results item =>
            PDAPS.addGen3ExpectedFields item none true >>= fun normalized =>
            match lookupField "display_id" item with
            | none => pure results
            | some (J.str s) =>
                pure (pyInsert results s (GenRecord.mk "discovery_metadata" normalized))
            | some _ => Except.error "nonStringKey")
          acc data = Except.ok r ∧
        r.map Prod.fst
          = (data.filterMap pdapsIdOf).foldl insertKeyName (acc.map Prod.fst) := by
  intro data
  induction data with
  | nil =>
    intro acc _ _
    exact ⟨acc, rfl, rfl⟩
  | cons item rest ih =>
    intro acc h1 h2
    rw [List.all_cons, Bool.and_eq_true] at h1 h2
    have haddg := pdaps_addgen3_nonlist item h1.1
    rw [List.foldlM_cons]
    cases hdid : lookupField "display_id" item with
    | none =>
      obtain ⟨r, hr, hk⟩ := ih acc h1.2 h2.2
      refine ⟨r, ?_, ?_⟩
      · simp only [haddg, except_ok_bind, hdid]
        exact hr
      · rw [hk]
        have : (item :: rest).filterMap pdapsIdOf = rest.filterMap pdapsIdOf := by
          rw [List.filterMap_cons]
          simp [pdapsIdOf, hdid]
        rw [this]
    | some v =>
      unfold displayIdOk at h2
      rw [hdid] at h2
      cases v with
      | str s =>
        obtain ⟨r, hr, hk⟩ := ih (pyInsert acc s (GenRecord.mk "discovery_metadata" item))
          h1.2 h2.2
        refine ⟨r, ?_, ?_⟩
        · simp only [haddg, except_ok_bind, hdid]
          exact hr
        · rw [hk, pyInsert_keys]
          have : (item :: rest).filterMap pdapsIdOf = s :: rest.filterMap pdapsIdOf := by
            rw [List.filterMap_cons]
            simp [pdapsIdOf, hdid]
          rw [this, List.foldl_cons]
      | null => simp at h2
      | bool b => simp at h2
      | num n => simp at h2
      | arr xs => simp at h2
      | obj fs => simp at h2

/-- C8 (amended): only the PDAPS adapter skips raw items missing the
identifying key.  With no mapping spec and every item carrying a
non-list `investigators` value (so the preceding `addGen3ExpectedFields`
call succeeds) and a string `display_id` where present, PDAPS
normalization succeeds and the resulting record set is keyed exactly by
the `display_id` values of the items that have one: items missing the
key are excluded without failing the batch. -/
theorem pdaps_normalize_skips_missing_id (data : List Fields)
    (h1 : data.all hasNonListInvestigators = true)
    (h2 : data.all displayIdOk = true) :
    ∃ r, PDAPS.normalizeToGen3MDSFields data none true none = Except.ok r ∧
      r.map Prod.fst = (data.filterMap pdapsIdOf).foldl insertKeyName [] := by
  obtain ⟨r, hr, hk⟩ := pdaps_normalize_go data [] h1 h2
  refine ⟨r, ?_, hk⟩
  unfold PDAPS.normalizeToGen3MDSFields
  rw [hr]
  rfl

/-- Witness for C8 on a two-item batch: the item missing `display_id` is
skipped, the other is normalized and keyed by its `display_id`. -/
theorem pdaps_normalize_skips_missing_id_witness :
    ([[("display_id", J.str "d1"), ("investigators", J.str "x")],
      [("investigators", J.str "y")]].all hasNonListInvestigators = true) ∧
    ([[("display_id", J.str "d1"), ("investigators", J.str "x")],
      [("investigators", J.str "y")]].all displayIdOk = true) ∧
    ∃ r, PDAPS.normalizeToGen3MDSFields
        [[("display_id", J.str "d1"), ("investigators", J.str "x")],
         [("investigators", J.str "y")]] none true none = Except.ok r ∧
      r.map Prod.fst = ["d1"] := by
  refine ⟨rfl, rfl, ?_⟩
  obtain ⟨r, hr, hk⟩ := pdaps_normalize_skips_missing_id
    [[("display_id", J.str "d1"), ("investigators", J.str "x")],
     [("investigators", J.str "y")]] rfl rfl
  exact ⟨r, hr, by rw [hk]; rfl⟩

/-- Counterexample for C8 as stated: ClinicalTrials normalization does
not skip an item missing its identifying key `NCTId` — the whole batch
fails with a `KeyError`. -/
theorem clinicaltrials_normalize_missing_id :
    ClinicalTrials.normalizeToGen3MDSFields
        [[("Study", J.obj [("BriefTitle", J.str "t")])]] none true none
      = Except.error "KeyError: NCTId" := by
  have hf : flatten [("BriefTitle", J.str "t")] none = [("BriefTitle", J.str "t")] := by
    simp [flatten, flattenCollect, pyDict, pyInsert]
  unfold ClinicalTrials.normalizeToGen3MDSFields
  simp [List.foldlM_cons, List.foldlM_nil, lookupField, List.find?, hf,
    ClinicalTrials.addGen3ExpectedFields, applyMappings, pyInsert]

/-- Witness for C2 on the spec example `(counts,:all,(,:eq,42))`: true on
`[42, 42]` and vacuously true on the empty array. -/
theorem get_all_sql_clause_iff_forall_witness :
    get_all_sql_clause [J.num 42, J.num 42]
        (fun v => match v with | J.num n => n == 42 | _ => false) = true ∧
      get_all_sql_clause []
        (fun v => match v with | J.num n => n == 42 | _ => false) = true :=
  ⟨(get_all_sql_clause_iff_forall [J.num 42, J.num 42]
      (fun v => match v with | J.num n => n == 42 | _ => false)).1.mpr (by decide),
   (get_all_sql_clause_iff_forall []
      (fun v => match v with | J.num n => n == 42 | _ => false)).2⟩
